import Mathlib

/-
Shallow embedding of the Aave V3 USDC supply-event analysis pipeline:
  - src/aave_usdc_analysis/connection.py  (Web3ConnectionManager)
  - src/rotation/event_fetcher.py         (SupplyEventFetcher)
  - src/rotation/analyzer.py              (SupplyEventAnalyzer)
Python floats are modelled as exact rationals (ℚ); pandas NaN results of a
zero-by-zero division are modelled as `none` in an `Option ℚ`; Python
exceptions are modelled with `Except` / `Option` result types.
-/

namespace AaveUsdc

/-! ## Data model (event_fetcher.py) -/

/-- Constant `USDC_DECIMALS = 6` from event_fetcher.py. -/
def USDC_DECIMALS : ℕ := 6

/-- Constant `BLOCKS_PER_BATCH = 10000` from event_fetcher.py. -/
def BLOCKS_PER_BATCH : ℕ := 10000

/-- The `args` dict of a raw web3 event.  Fields are `Option` because the
dict may miss a key; a missing key raises `KeyError` in the source, which
`_parse_supply_event` catches, returning `None`. -/
structure SupplyEventArgs where
  reserve : Option String
  user : Option String
  onBehalfOf : Option String
  amount : Option ℕ
  referralCode : Option ℕ
deriving DecidableEq

/-- A raw log entry as returned by `event_filter.get_all_entries()`.  The
transaction hash is modelled directly by its hex rendering (the source
applies `.hex()` to the byte sequence). -/
structure RawSupplyEvent where
  blockNumber : ℕ
  transactionHash : String
  args : SupplyEventArgs
deriving DecidableEq

/-- The parsed record dict built by `SupplyEventFetcher._parse_supply_event`.
`timestamp` defaults to 0 ("not fetched"); it is set only by
`enrich_events_with_timestamps`. -/
structure SupplyRecord where
  block_number : ℕ
  transaction_hash : String
  reserve : String
  user : String
  on_behalf_of : String
  amount_raw : ℕ
  amount_usdc : ℚ
  referral_code : ℕ
  timestamp : ℕ := 0
deriving DecidableEq

/-- Embedding of `SupplyEventFetcher._parse_supply_event` (event_fetcher.py
lines 138-167): reads `args['amount']`, `args['reserve']`, `args['user']`,
`args['onBehalfOf']` (a missing key raises `KeyError`, caught and turned into
`None`), uses `args.get('referralCode', 0)`, and computes
`amount_usdc = amount_raw / (10 ** USDC_DECIMALS)` (exact division in this
rational-arithmetic embedding). -/
def parse_supply_event (ev : RawSupplyEvent) : Option SupplyRecord :=
  match ev.args.amount, ev.args.reserve, ev.args.user, ev.args.onBehalfOf with
  | some amount_raw, some reserve, some user, some onBehalfOf =>
      some { block_number := ev.blockNumber
             transaction_hash := ev.transactionHash
             reserve := reserve
             user := user
             on_behalf_of := onBehalfOf
             amount_raw := amount_raw
             amount_usdc := (amount_raw : ℚ) / 10 ^ USDC_DECIMALS
             referral_code := ev.args.referralCode.getD 0
             timestamp := 0 }
  | _, _, _, _ => none

/-! ## Connection manager (connection.py) -/

/-- One probing pass of `Web3ConnectionManager._connect` (connection.py lines
34-58): `for attempt in range(len(endpoints))`, probe the endpoint at the
cursor with a liveness check (`is_connected`; an exception while connecting
takes the same rotate-and-continue path as a failed check, so both are
modelled as `live = false`); on failure rotate the cursor
(`(idx + 1) % len(endpoints)`).  Returns the list of probed cursor positions
together with `some idx` on success or `none` for the final
`raise ConnectionError`. -/
def connectAux (live : String → Bool) (eps : List String) :
    ℕ → ℕ → List ℕ × Option ℕ
  | 0, _ => ([], none)
  | k + 1, idx =>
      if live (eps.getD idx "") then ([idx], some idx)
      else
        let r := connectAux live eps k ((idx + 1) % eps.length)
        (idx :: r.1, r.2)

/-- Embedding of `Web3ConnectionManager._connect`: one full pass over the
endpoint list starting from the current cursor. -/
def connect (live : String → Bool) (eps : List String) (idx : ℕ) :
    List ℕ × Option ℕ :=
  connectAux live eps eps.length idx

/-- Outcome of one invocation of the operation passed to
`execute_with_retry`: success, an error of the recognized transient classes
(`Web3Exception`, `requests.exceptions.RequestException`), or an error of any
other class (not caught by the `except` clause).  Error classes carry a
numeric identity. -/
inductive OpOutcome (α : Type) where
  | ok (v : α)
  | transient (e : ℕ)
  | fatal (e : ℕ)
deriving DecidableEq

/-- How `execute_with_retry` can raise: re-raising the last transient error
after the retry budget is spent, propagating an unrecognized error,
propagating `ConnectionError` out of a failed `_connect` during rotation, or
the generic `Exception("Max retries exceeded")` when no error was recorded. -/
inductive RunErr where
  | transient (e : ℕ)
  | fatal (e : ℕ)
  | connExhausted
  | maxRetriesGeneric
deriving DecidableEq

/-- Observable side effect of one failed iteration of the retry loop:
`time.sleep(RETRY_DELAY)`, or rotate-and-reconnect. -/
inductive RetryEv where
  | sleep
  | rotate
deriving DecidableEq

/-- Embedding of the loop of `Web3ConnectionManager.execute_with_retry`
(connection.py lines 64-94).  `outcomes i` is the result of the i-th
invocation of the wrapped operation (the i-th call happens when
`retries = i`).  State: `retries` counter, endpoint cursor `idx`, and
`lastErr` (`last_exception`).  Loop guard: `retries < MAXR * len(eps)`.
On a transient error the counter is incremented; when it hits a multiple of
`MAXR` the manager rotates and re-runs `_connect` (whose `ConnectionError`,
if any, is not a recognized class and propagates), otherwise it sleeps.
An unrecognized error propagates at once.  Returns the result together with
the trace of sleep/rotate effects. -/
def ewrAux {α : Type} (outcomes : ℕ → OpOutcome α) (MAXR : ℕ)
    (live : String → Bool) (eps : List String)
    (retries idx : ℕ) (lastErr : Option ℕ) :
    Except RunErr α × List RetryEv :=
  if h : retries < MAXR * eps.length then
    match outcomes retries with
    | .ok v => (.ok v, [])
    | .fatal e => (.error (.fatal e), [])
    | .transient e =>
        if (retries + 1) % MAXR = 0 then
          match (connect live eps ((idx + 1) % eps.length)).2 with
          | none => (.error .connExhausted, [.rotate])
          | some idx2 =>
              let r := ewrAux outcomes MAXR live eps (retries + 1) idx2 (some e)
              (r.1, .rotate :: r.2)
        else
          let r := ewrAux outcomes MAXR live eps (retries + 1) idx (some e)
          (r.1, .sleep :: r.2)
  else
    (Option.elim lastErr (Except.error RunErr.maxRetriesGeneric)
      (fun e => Except.error (RunErr.transient e)), [])
termination_by MAXR * eps.length - retries
decreasing_by all_goals omega

/-- Embedding of `Web3ConnectionManager.execute_with_retry`: the loop starts
with `retries = 0` and `last_exception = None` at the current cursor. -/
def execute_with_retry {α : Type} (outcomes : ℕ → OpOutcome α) (MAXR : ℕ)
    (live : String → Bool) (eps : List String) (idx : ℕ) :
    Except RunErr α × List RetryEv :=
  ewrAux outcomes MAXR live eps 0 idx none

/-- Closed form of the side-effect trace of a run of the retry loop that
fails on every invocation: starting from retry counter `r`, each of the next
`n` failures rotates when the incremented counter is a multiple of `MAXR`
and sleeps otherwise. -/
def expectedTrace (MAXR : ℕ) : ℕ → ℕ → List RetryEv
  | _, 0 => []
  | r, n + 1 =>
      (if (r + 1) % MAXR = 0 then RetryEv.rotate else RetryEv.sleep) ::
        expectedTrace MAXR (r + 1) n

/-! ## Event fetcher loop (event_fetcher.py) -/

/-- Embedding of the `while` loop of `SupplyEventFetcher.fetch_supply_events`
(event_fetcher.py lines 54-98).  `query fb tb` models
`create_filter(fromBlock=fb, toBlock=tb, ...).get_all_entries()`; `.error`
is a batch-level exception (caught, incrementing `attempt` and backing
off).  `to_block := from_block`, then
`from_block := max(0, to_block - BLOCKS_PER_BATCH)` (ℕ subtraction is
already truncated at 0).  Each returned event is decoded by
`parse_supply_event`; decode failures are skipped (`filterMap`).  After a
successful batch, `if len(all_events) >= target_count: break`.  Returns the
accumulated records and the list of `(from_block, to_block)` windows
queried. -/
def consWin (w : ℕ × ℕ) (p : List SupplyRecord × List (ℕ × ℕ)) :
    List SupplyRecord × List (ℕ × ℕ) :=
  (p.1, w :: p.2)

def fetchLoop (query : ℕ → ℕ → Except Unit (List RawSupplyEvent))
    (target : ℕ) (all : List SupplyRecord) (fb att : ℕ) :
    List SupplyRecord × List (ℕ × ℕ) :=
  if h : all.length < target ∧ 0 < fb ∧ att < 5 then
    match query (fb - BLOCKS_PER_BATCH) fb with
    | .ok rawEvents =>
        if target ≤ (all ++ rawEvents.filterMap parse_supply_event).length
        then (all ++ rawEvents.filterMap parse_supply_event,
              [(fb - BLOCKS_PER_BATCH, fb)])
        else consWin (fb - BLOCKS_PER_BATCH, fb)
          (fetchLoop query target
            (all ++ rawEvents.filterMap parse_supply_event)
            (fb - BLOCKS_PER_BATCH) att)
    | .error _ =>
        consWin (fb - BLOCKS_PER_BATCH, fb)
          (fetchLoop query target all (fb - BLOCKS_PER_BATCH) (att + 1))
  else (all, [])
termination_by fb
decreasing_by
  all_goals
    simp only [BLOCKS_PER_BATCH]
    omega

/-- Embedding of `SupplyEventFetcher.fetch_supply_events` (lines 33-107):
run the backward-walking loop from the current head block with
`all_events = []` and `attempt = 0`, then truncate the accumulated list with
`all_events[:target_count]`. -/
def fetch_supply_events (query : ℕ → ℕ → Except Unit (List RawSupplyEvent))
    (currentBlock target : ℕ) : List SupplyRecord × List (ℕ × ℕ) :=
  let r := fetchLoop query target [] currentBlock 0
  (r.1.take target, r.2)

/-- Embedding of `SupplyEventFetcher.get_block_timestamp` (lines 169-186):
`lookup b = none` models any exception out of the retried
`w3.eth.get_block(b)` call, caught and turned into 0. -/
def get_block_timestamp (lookup : ℕ → Option ℕ) (b : ℕ) : ℕ :=
  (lookup b).getD 0

/-- Python `dict.get(key, default)` over an association list with unique
keys. -/
def dictGet : List (ℕ × ℕ) → ℕ → ℕ → ℕ
  | [], _, d => d
  | (k, v) :: rest, key, d => if k = key then v else dictGet rest key d

/-- Embedding of `SupplyEventFetcher.enrich_events_with_timestamps` (lines
188-217): collect the set of distinct block numbers (`list(set(...))` —
membership is all that matters for the dict built from it), resolve each
unique block once through `get_block_timestamp`, then set each record's
`timestamp` to `block_timestamps.get(event['block_number'], 0)`. -/
def enrich_events_with_timestamps (lookup : ℕ → Option ℕ)
    (events : List SupplyRecord) : List SupplyRecord :=
  let uniqueBlocks := (events.map (·.block_number)).dedup
  let blockTimestamps := uniqueBlocks.map
    (fun b => (b, get_block_timestamp lookup b))
  events.map (fun e =>
    { e with timestamp := dictGet blockTimestamps e.block_number 0 })

/-! ## Analyzer (analyzer.py) -/

/-- Exceptions the analyzer can raise on degenerate input: `KeyError` from a
column access on the column-less DataFrame built from an empty record list,
`IndexError` from `iloc[0]` on an empty frame. -/
inductive AErr where
  | keyError
  | indexError
deriving DecidableEq

/-- One step of `df.groupby('on_behalf_of').agg({'amount_usdc': ['sum',
'count']})`: fold a record's amount into the per-address (total, count)
table, keyed by the `on_behalf_of` field. -/
def addToGroup (groups : List (String × ℚ × ℕ)) (addr : String) (amt : ℚ) :
    List (String × ℚ × ℕ) :=
  match groups with
  | [] => [(addr, amt, 1)]
  | (a, t, c) :: rest =>
      if a = addr then (a, t + amt, c + 1) :: rest
      else (a, t, c) :: addToGroup rest addr amt

/-- Per-address aggregation table of `groupby('on_behalf_of')`: for each
distinct `on_behalf_of` address, the sum of `amount_usdc` and the number of
records. -/
def groupTotals (records : List SupplyRecord) : List (String × ℚ × ℕ) :=
  records.foldl (fun g r => addToGroup g r.on_behalf_of r.amount_usdc) []

/-- Embedding of `self.df['amount_usdc'].sum()`. -/
def total_supply (records : List SupplyRecord) : ℚ :=
  (records.map (·.amount_usdc)).sum

/-- Result record of `SupplyEventAnalyzer._analyze_whales` (without the
`all_whales` frame).  `percentage = none` models the non-finite float
(NaN) produced by dividing by a zero total supply. -/
structure WhaleData where
  address : String
  total_usdc : ℚ
  tx_count : ℕ
  percentage : Option ℚ
deriving DecidableEq

/-- Embedding of `SupplyEventAnalyzer._analyze_whales` (analyzer.py lines
74-99): group by `on_behalf_of`, sort descending by total (stable sort on
the grouped table), take row 0, and compute
`(top_total / total_supply) * 100`.  On an empty record list the DataFrame
has no columns, so the `groupby` raises `KeyError`; the division by a zero
total yields a non-finite float, modelled as `none`. -/
def analyze_whales (records : List SupplyRecord) : Except AErr WhaleData :=
  if records.isEmpty then .error .keyError
  else
    let totals := groupTotals records
    let sorted := List.insertionSort
      (fun a b : String × ℚ × ℕ => b.2.1 ≤ a.2.1) totals
    match sorted with
    | [] => .error .indexError
    | top :: _ =>
        let total := total_supply records
        .ok { address := top.1
              total_usdc := top.2.1
              tx_count := top.2.2
              percentage :=
                if total = 0 then none else some (top.2.1 / total * 100) }

/-- Embedding of `SupplyEventAnalyzer._top_n_percentage` (analyzer.py lines
101-115): `supplier_totals.nlargest(n).sum()` is the sum of the first `n`
entries of the per-address totals sorted descending; the result is
`(top_n_supply / total_supply) * 100`.  Empty record list: `KeyError` as
above; zero total supply: non-finite float, modelled as `none`. -/
def top_n_percentage (records : List SupplyRecord) (n : ℕ) :
    Except AErr (Option ℚ) :=
  if records.isEmpty then .error .keyError
  else
    let totals := (groupTotals records).map (fun x => x.2.1)
    let sorted := List.insertionSort (fun a b : ℚ => b ≤ a) totals
    let topn := (sorted.take n).sum
    let total := total_supply records
    if total = 0 then .ok none else .ok (some (topn / total * 100))

/-- Bucket counts of `SupplyEventAnalyzer._analyze_transaction_sizes`. -/
structure SizeDist where
  small : ℕ
  medium : ℕ
  large : ℕ
  whale : ℕ
deriving DecidableEq

/-- Embedding of `SupplyEventAnalyzer._analyze_transaction_sizes`
(analyzer.py lines 117-140): thresholds 1000 / 10000 / 100000, counts of
`amount < 1000`, `1000 <= amount < 10000`, `10000 <= amount < 100000`,
`amount >= 100000`.  On an empty record list the column access raises
`KeyError`. -/
def analyze_transaction_sizes (records : List SupplyRecord) :
    Except AErr SizeDist :=
  if records.isEmpty then .error .keyError
  else
    .ok { small := (records.filter
            (fun r => decide (r.amount_usdc < 1000))).length
          medium := (records.filter (fun r =>
            decide (1000 ≤ r.amount_usdc ∧ r.amount_usdc < 10000))).length
          large := (records.filter (fun r =>
            decide (10000 ≤ r.amount_usdc ∧ r.amount_usdc < 100000))).length
          whale := (records.filter
            (fun r => decide (100000 ≤ r.amount_usdc))).length }

/-! ## Concrete inputs used by evidence and witness theorems -/

/-- A record whose decimal amount is 0 (a zero-amount supply), giving a
record set with grand total 0. -/
def zeroRecord : SupplyRecord :=
  { block_number := 1
    transaction_hash := "0xh0"
    reserve := "USDC"
    user := "0xu0"
    on_behalf_of := "0xa0"
    amount_raw := 0
    amount_usdc := 0
    referral_code := 0
    timestamp := 0 }

/-- A record with a given decimal amount (other fields as in
`zeroRecord`), used to probe bucket boundaries. -/
def amtRecord (q : ℚ) : SupplyRecord :=
  { zeroRecord with amount_usdc := q }

/-- A concrete decodable raw event. -/
def evC4 : RawSupplyEvent :=
  { blockNumber := 100
    transactionHash := "0xdead"
    args := { reserve := some "USDC"
              user := some "0xu"
              onBehalfOf := some "0xb"
              amount := some 1234567
              referralCode := none } }

/-- The record `parse_supply_event` decodes `evC4` to. -/
def recC4 : SupplyRecord :=
  { block_number := 100
    transaction_hash := "0xdead"
    reserve := "USDC"
    user := "0xu"
    on_behalf_of := "0xb"
    amount_raw := 1234567
    amount_usdc := ((1234567 : ℕ) : ℚ) / 10 ^ USDC_DECIMALS
    referral_code := 0
    timestamp := 0 }

/-- A mock log source: 3 decodable events in the window (10000, 20000),
none anywhere else. -/
def mockQuery (fb tb : ℕ) : Except Unit (List RawSupplyEvent) :=
  if fb = 10000 ∧ tb = 20000 then .ok [evC4, evC4, evC4] else .ok []

/-- A log source whose batch query always fails. -/
def failQuery (_ _ : ℕ) : Except Unit (List RawSupplyEvent) :=
  .error ()

/-! ## Helper lemmas: grouping sums -/

/-- Folding one amount into the per-address table adds it to the sum of the
per-address totals. -/
lemma addToGroup_sum (g : List (String × ℚ × ℕ)) (addr : String) (amt : ℚ) :
    ((addToGroup g addr amt).map (fun x => x.2.1)).sum =
      (g.map (fun x => x.2.1)).sum + amt := by
  induction g with
  | nil => simp [addToGroup]
  | cons p rest ih =>
      obtain ⟨a, t, c⟩ := p
      by_cases h : a = addr
      · subst h
        simp [addToGroup]
        ring
      · simp only [addToGroup, if_neg h, List.map_cons, List.sum_cons, ih]
        ring

/-- Generalized over the accumulator: the grouping fold preserves the total
amount. -/
lemma foldl_addToGroup_sum (records : List SupplyRecord) :
    ∀ g : List (String × ℚ × ℕ),
      (((records.foldl
          (fun g r => addToGroup g r.on_behalf_of r.amount_usdc) g)).map
            (fun x => x.2.1)).sum =
        (g.map (fun x => x.2.1)).sum + (records.map (·.amount_usdc)).sum := by
  induction records with
  | nil => intro g; simp
  | cons r rest ih =>
      intro g
      simp only [List.foldl_cons, List.map_cons, List.sum_cons, ih,
        addToGroup_sum]
      ring

/-- The sum of the per-address totals equals the grand total of amounts. -/
lemma groupTotals_sum (records : List SupplyRecord) :
    ((groupTotals records).map (fun x => x.2.1)).sum =
      total_supply records := by
  have h := foldl_addToGroup_sum records []
  simpa [groupTotals, total_supply] using h

/-- Folding a non-negative amount into a table of non-negative per-address
totals keeps every total non-negative. -/
lemma addToGroup_nonneg (addr : String) (amt : ℚ) (ha : 0 ≤ amt) :
    ∀ g : List (String × ℚ × ℕ), (∀ x ∈ g, 0 ≤ x.2.1) →
      ∀ x ∈ addToGroup g addr amt, 0 ≤ x.2.1 := by
  intro g
  induction g with
  | nil =>
      intro _ x hx
      simp only [addToGroup, List.mem_singleton] at hx
      simp [hx, ha]
  | cons p rest ih =>
      obtain ⟨a, t, c⟩ := p
      intro hg x hx
      by_cases h : a = addr
      · subst h
        simp only [addToGroup, if_pos rfl] at hx
        rcases List.mem_cons.mp hx with hx | hx
        · have ht : (0 : ℚ) ≤ t := by
            simpa using hg (a, t, c) (by simp)
          simp [hx]
          simpa using add_nonneg ht ha
        · exact hg x (List.mem_cons_of_mem _ hx)
      · simp only [addToGroup, if_neg h] at hx
        rcases List.mem_cons.mp hx with hx | hx
        · rw [hx]
          exact hg (a, t, c) (by simp)
        · exact ih (fun y hy => hg y (List.mem_cons_of_mem _ hy)) x hx

/-- Every per-address total of `groupTotals` is non-negative when every
record's amount is. -/
lemma groupTotals_nonneg (records : List SupplyRecord)
    (h : ∀ r ∈ records, 0 ≤ r.amount_usdc) :
    ∀ x ∈ groupTotals records, 0 ≤ x.2.1 := by
  suffices H : ∀ rs : List SupplyRecord,
      (∀ r ∈ rs, 0 ≤ r.amount_usdc) →
      ∀ g : List (String × ℚ × ℕ), (∀ x ∈ g, 0 ≤ x.2.1) →
      ∀ x ∈ rs.foldl
        (fun g r => addToGroup g r.on_behalf_of r.amount_usdc) g,
        0 ≤ x.2.1 by
    exact H records h [] (by simp)
  intro rs
  induction rs with
  | nil =>
      intro _ g hg x hx
      exact hg x (by simpa using hx)
  | cons r t ih =>
      intro hr g hg x hx
      simp only [List.foldl_cons] at hx
      exact ih (fun y hy => hr y (List.mem_cons_of_mem _ hy)) _
        (addToGroup_nonneg _ _ (hr r (by simp)) g hg) x hx

/-! ## Helper lemmas: sums of sorted prefixes -/

/-- For a list of non-negative rationals, the sum of a longer prefix
dominates the sum of a shorter one. -/
lemma take_sum_mono (l : List ℚ) (hnn : ∀ x ∈ l, 0 ≤ x)
    (n m : ℕ) (hnm : n ≤ m) :
    (l.take n).sum ≤ (l.take m).sum := by
  have h1 : (l.take m).take n = l.take n := by
    rw [List.take_take, Nat.min_eq_left hnm]
  calc (l.take n).sum = ((l.take m).take n).sum := by rw [h1]
    _ ≤ ((l.take m).take n).sum + ((l.take m).drop n).sum := by
        refine le_add_of_nonneg_right (List.sum_nonneg ?_)
        intro x hx
        exact hnn x (List.take_subset m l (List.drop_subset _ _ hx))
    _ = (l.take m).sum := by rw [← List.sum_append, List.take_append_drop]

/-- For a list of non-negative rationals, every prefix sum is at most the
full sum. -/
lemma take_sum_le_sum (l : List ℚ) (hnn : ∀ x ∈ l, 0 ≤ x) (n : ℕ) :
    (l.take n).sum ≤ l.sum := by
  conv_rhs => rw [← List.take_append_drop n l]
  rw [List.sum_append]
  refine le_add_of_nonneg_right (List.sum_nonneg ?_)
  intro x hx
  exact hnn x (List.drop_subset _ _ hx)

/-! ## Helper lemma: dict built over unique keys -/

/-- Looking a present key up in the dict `{k: g k for k in keys}` yields
`g` at that key. -/
lemma dictGet_map_eq (g : ℕ → ℕ) (keys : List ℕ) (b : ℕ) (hb : b ∈ keys) :
    dictGet (keys.map (fun k => (k, g k))) b 0 = g b := by
  induction keys with
  | nil => cases hb
  | cons k rest ih =>
      simp only [List.map_cons, dictGet]
      by_cases h : k = b
      · simp [h]
      · simp only [if_neg h]
        rcases List.mem_cons.mp hb with h' | h'
        · exact absurd h'.symm h
        · exact ih h'

/-! ## Helper lemma: fetch loop under batch failures -/

/-- One iteration of the loop under a failed batch query, inside the loop
guard: the window is recorded and the attempt counter advances. -/
lemma fetchLoop_fail_step (target fb att : ℕ)
    (hg : ([] : List SupplyRecord).length < target ∧ 0 < fb ∧ att < 5) :
    fetchLoop failQuery target [] fb att =
      consWin (fb - BLOCKS_PER_BATCH, fb)
        (fetchLoop failQuery target [] (fb - BLOCKS_PER_BATCH) (att + 1)) := by
  rw [fetchLoop.eq_def, dif_pos hg]
  rfl

/-- Recording a window adds one entry to the window trace. -/
lemma consWin_snd_length (w : ℕ × ℕ)
    (p : List SupplyRecord × List (ℕ × ℕ)) :
    (consWin w p).2.length = p.2.length + 1 := rfl

/-- Outside the loop guard the loop returns the accumulator unchanged. -/
lemma fetchLoop_fail_stop (target fb att : ℕ)
    (hg : ¬ (([] : List SupplyRecord).length < target ∧
      0 < fb ∧ att < 5)) :
    fetchLoop failQuery target [] fb att = ([], []) := by
  rw [fetchLoop.eq_def, dif_neg hg]

/-- With an always-failing batch query and a positive target, the fetch
loop walks one window per failed attempt and stops when the failed-attempt
counter reaches the cap of 5. -/
lemma fetchLoop_fail_len (target : ℕ) (htarget : 0 < target) :
    ∀ k fb att, att + k = 5 → k * BLOCKS_PER_BATCH ≤ fb →
      (fetchLoop failQuery target [] fb att).2.length = k := by
  intro k
  induction k with
  | zero =>
      intro fb att hsum hfb
      rw [fetchLoop_fail_stop]
      · rfl
      · rintro ⟨-, -, hlt⟩
        omega
  | succ n ih =>
      intro fb att hsum hfb
      simp only [BLOCKS_PER_BATCH] at hfb
      have h0 : 0 < fb := by omega
      rw [fetchLoop_fail_step target fb att
        ⟨by simpa using htarget, h0, by omega⟩, consWin_snd_length]
      rw [ih (fb - BLOCKS_PER_BATCH) (att + 1) (by omega)
        (by simp only [BLOCKS_PER_BATCH]; omega)]

/-! ## Helper lemmas: size buckets -/

/-- Length of a filter over a cons cell, as an indicator plus the tail
count. -/
lemma length_filter_cons {α : Type} (p : α → Bool) (r : α) (t : List α) :
    (List.filter p (r :: t)).length =
      (if p r = true then 1 else 0) + (List.filter p t).length := by
  by_cases h : p r = true <;> simp [List.filter_cons, h] <;> omega

/-- Every amount satisfies exactly one of the four bucket conditions of
`analyze_transaction_sizes`. -/
lemma bucket_one (q : ℚ) :
    ((if decide (q < 1000) = true then 1 else 0) +
     (if decide (1000 ≤ q ∧ q < 10000) = true then 1 else 0) +
     (if decide (10000 ≤ q ∧ q < 100000) = true then 1 else 0) +
     (if decide (100000 ≤ q) = true then 1 else 0) : ℕ) = 1 := by
  rcases lt_or_le q 1000 with h1 | h1
  · rw [if_pos (decide_eq_true h1),
      if_neg (fun hc => absurd (of_decide_eq_true hc).1 (by linarith)),
      if_neg (fun hc => absurd (of_decide_eq_true hc).1 (by linarith)),
      if_neg (fun hc => absurd (of_decide_eq_true hc) (by linarith))]
  · rcases lt_or_le q 10000 with h2 | h2
    · rw [if_neg (fun hc => absurd (of_decide_eq_true hc) (by linarith)),
        if_pos (decide_eq_true ⟨h1, h2⟩),
        if_neg (fun hc => absurd (of_decide_eq_true hc).1 (by linarith)),
        if_neg (fun hc => absurd (of_decide_eq_true hc) (by linarith))]
    · rcases lt_or_le q 100000 with h3 | h3
      · rw [if_neg (fun hc => absurd (of_decide_eq_true hc) (by linarith)),
          if_neg (fun hc => absurd (of_decide_eq_true hc).2 (by linarith)),
          if_pos (decide_eq_true ⟨h2, h3⟩),
          if_neg (fun hc => absurd (of_decide_eq_true hc) (by linarith))]
      · rw [if_neg (fun hc => absurd (of_decide_eq_true hc) (by linarith)),
          if_neg (fun hc => absurd (of_decide_eq_true hc).2 (by linarith)),
          if_neg (fun hc => absurd (of_decide_eq_true hc).2 (by linarith)),
          if_pos (decide_eq_true h3)]

/-- The four bucket counts of `analyze_transaction_sizes` sum to the record
count, for every record list. -/
lemma size_counts_sum (l : List SupplyRecord) :
    (l.filter (fun r => decide (r.amount_usdc < 1000))).length +
      (l.filter (fun r =>
        decide (1000 ≤ r.amount_usdc ∧ r.amount_usdc < 10000))).length +
      (l.filter (fun r =>
        decide (10000 ≤ r.amount_usdc ∧ r.amount_usdc < 100000))).length +
      (l.filter (fun r => decide (100000 ≤ r.amount_usdc))).length =
      l.length := by
  induction l with
  | nil => simp
  | cons r t ih =>
      simp only [length_filter_cons, List.length_cons]
      have hb := bucket_one r.amount_usdc
      omega

/-! ## Helper lemmas: connection probing -/

/-- With every endpoint failing its liveness check, one probing pass visits
the cursor positions `idx, idx+1, ... (mod N)` and ends with no
connection. -/
lemma connectAux_all_dead (live : String → Bool) (eps : List String)
    (hdead : ∀ s ∈ eps, live s = false) :
    ∀ k idx, idx < eps.length →
      connectAux live eps k idx =
        ((List.range k).map (fun i => (idx + i) % eps.length), none) := by
  intro k
  induction k with
  | zero => intro idx hidx; simp [connectAux]
  | succ n ih =>
      intro idx hidx
      have hmem : (eps[idx]?.getD "") ∈ eps := by
        simp only [List.getElem?_eq_getElem hidx, Option.getD_some]
        exact List.getElem_mem hidx
      have hlive : live (eps[idx]?.getD "") = false := hdead _ hmem
      have hN : 0 < eps.length := by omega
      rw [connectAux, if_neg (by simp [hlive])]
      rw [ih ((idx + 1) % eps.length) (Nat.mod_lt _ hN)]
      simp only [List.range_succ_eq_map, List.map_cons, List.map_map]
      refine Prod.ext ?_ rfl
      simp only
      refine List.cons_eq_cons.mpr ⟨?_, ?_⟩
      · rw [Nat.add_zero, Nat.mod_eq_of_lt hidx]
      · refine List.map_congr_left ?_
        intro i hi
        simp only [Function.comp_apply]
        rw [Nat.mod_add_mod]
        congr 1
        omega

/-- With every endpoint passing its liveness check, `_connect` succeeds at
once on the endpoint under the cursor. -/
lemma connect_all_live (live : String → Bool) (eps : List String)
    (hlive : ∀ s, live s = true) (hE : eps ≠ []) :
    ∀ idx, (connect live eps idx).2 = some idx := by
  intro idx
  obtain ⟨e, rest, rfl⟩ := List.exists_cons_of_ne_nil hE
  rw [connect]
  simp [connectAux, hlive]

/-- The closed-form trace has one sleep/rotate event per failure. -/
lemma expectedTrace_length (MAXR : ℕ) :
    ∀ n r, (expectedTrace MAXR r n).length = n := by
  intro n
  induction n with
  | zero => intro r; rfl
  | succ m ih => intro r; simp [expectedTrace, ih]

/-- Closed form of the retry loop when every invocation fails with a
recognized transient error and every endpoint answers the reconnect probe:
with `fuel` retries left in the budget, the loop spends them all, raises
the error of the last attempt, and emits the closed-form trace. -/
lemma ewrAux_all_transient {α : Type} (errId : ℕ → ℕ) (MAXR : ℕ)
    (live : String → Bool) (eps : List String)
    (hM : 1 ≤ MAXR) (hE : eps ≠ []) (hlive : ∀ s, live s = true) :
    ∀ fuel retries idx lastE,
      retries + fuel = MAXR * eps.length → 0 < fuel →
      ewrAux (α := α) (fun i => OpOutcome.transient (errId i)) MAXR live eps
          retries idx lastE =
        (Except.error (RunErr.transient (errId (MAXR * eps.length - 1))),
         expectedTrace MAXR retries fuel) := by
  intro fuel
  induction fuel with
  | zero => intro retries idx lastE hsum hpos; omega
  | succ n ih =>
      intro retries idx lastE hsum hpos
      have hlt : retries < MAXR * eps.length := by omega
      rw [ewrAux.eq_def]
      simp only [dif_pos hlt]
      by_cases hc : (retries + 1) % MAXR = 0
      · simp only [if_pos hc, connect_all_live live eps hlive hE]
        cases n with
        | zero =>
            have hge : ¬ (retries + 1 < MAXR * eps.length) := by omega
            have hr : retries = MAXR * eps.length - 1 := by omega
            rw [ewrAux.eq_def]
            simp only [dif_neg hge, Option.elim]
            rw [hr] at hc
            simp [expectedTrace, hc, hr]
        | succ m =>
            rw [ih (retries + 1) ((idx + 1) % eps.length)
              (some (errId retries)) (by omega) (by omega)]
            simp [expectedTrace, hc]
      · simp only [if_neg hc]
        have hn : 0 < n := by
          rcases Nat.eq_zero_or_pos n with h0 | h0
          · exfalso
            apply hc
            have he : retries + 1 = MAXR * eps.length := by omega
            rw [he]
            exact Nat.mul_mod_right MAXR eps.length
          · exact h0
        rw [ih (retries + 1) idx (some (errId retries)) (by omega) hn]
        simp [expectedTrace, hc]

/-- Closed form of the retry loop when the first `k` invocations fail with
recognized transient errors and the `(k+1)`-th raises an unrecognized error
class, inside the retry budget: the unrecognized error propagates at once,
with no sleep and no rotation after it. -/
lemma ewrAux_fatal {α : Type} (k e : ℕ) (errId : ℕ → ℕ) (MAXR : ℕ)
    (live : String → Bool) (eps : List String)
    (hE : eps ≠ []) (hlive : ∀ s, live s = true)
    (hk : k < MAXR * eps.length) :
    ∀ j retries idx lastE, retries + j = k →
      ewrAux (α := α)
          (fun i => if i < k then OpOutcome.transient (errId i)
                    else OpOutcome.fatal e) MAXR live eps retries idx lastE =
        (Except.error (RunErr.fatal e), expectedTrace MAXR retries j) := by
  intro j
  induction j with
  | zero =>
      intro retries idx lastE hsum
      have hr : retries = k := by omega
      subst hr
      rw [ewrAux.eq_def]
      simp [dif_pos hk, expectedTrace]
  | succ m ih =>
      intro retries idx lastE hsum
      have hrk : retries < k := by omega
      have hlt : retries < MAXR * eps.length := by omega
      rw [ewrAux.eq_def]
      simp only [dif_pos hlt, if_pos hrk]
      by_cases hc : (retries + 1) % MAXR = 0
      · simp only [if_pos hc, connect_all_live live eps hlive hE]
        rw [ih (retries + 1) ((idx + 1) % eps.length)
          (some (errId retries)) (by omega)]
        simp [expectedTrace, hc]
      · simp only [if_neg hc]
        rw [ih (retries + 1) idx (some (errId retries)) (by omega)]
        simp [expectedTrace, hc]

/-! ## Claim theorems -/

/-- C1: the spec requires the whale-percentage and top-N-percentage
computations to return 0 (or an explicit undefined marker) instead of
raising on an empty record set or a zero grand total; the code has no such
guard.  On the empty record set both computations raise `KeyError` (the
DataFrame built from `[]` has no `on_behalf_of`/`amount_usdc` column), and
on a non-empty record set with grand total 0 the division produces a
non-finite float (NaN), not 0. -/
theorem c1_analyzer_unguarded_division :
    analyze_whales [] = Except.error AErr.keyError ∧
    top_n_percentage [] 10 = Except.error AErr.keyError ∧
    analyze_whales [zeroRecord] = Except.ok
      { address := "0xa0", total_usdc := 0, tx_count := 1,
        percentage := none } ∧
    top_n_percentage [zeroRecord] 10 = Except.ok none := by
  refine ⟨rfl, rfl, ?_, ?_⟩ <;>
    simp [analyze_whales, top_n_percentage, groupTotals, addToGroup,
      total_supply, zeroRecord, List.insertionSort]

/-- C2: when every invocation of the wrapped operation fails with a
recognized transient error (and reconnects succeed), `execute_with_retry`
makes exactly `MAXR * N` bounded attempts (the emitted trace has one event
per failed attempt), rotates to the next endpoint and re-establishes the
connection after every `MAXR` consecutive failures and sleeps the fixed
delay otherwise (the `expectedTrace` closed form), terminates, and gives up
by re-raising the error of the last attempt. -/
theorem c2_retry_exhaustion {α : Type} (errId : ℕ → ℕ) (MAXR : ℕ)
    (live : String → Bool) (eps : List String) (idx : ℕ)
    (hM : 1 ≤ MAXR) (hE : eps ≠ []) (hlive : ∀ s, live s = true) :
    execute_with_retry (α := α) (fun i => OpOutcome.transient (errId i))
        MAXR live eps idx =
      (Except.error (RunErr.transient (errId (MAXR * eps.length - 1))),
       expectedTrace MAXR 0 (MAXR * eps.length)) ∧
    (expectedTrace MAXR 0 (MAXR * eps.length)).length =
      MAXR * eps.length := by
  have hN : 0 < eps.length := List.length_pos.mpr hE
  refine ⟨?_, expectedTrace_length MAXR (MAXR * eps.length) 0⟩
  exact ewrAux_all_transient errId MAXR live eps hM hE hlive
    (MAXR * eps.length) 0 idx none (by omega) (Nat.mul_pos hM hN)

/-- Witness for C2: two endpoints, two retries per endpoint, every call
failing transiently — four attempts, then the last error is raised. -/
theorem c2_retry_exhaustion_witness :
    (1 ≤ 2 ∧ (["e1", "e2"] : List String) ≠ [] ∧
      ∀ s : String, (fun _ : String => true) s = true) ∧
    (execute_with_retry (α := ℕ) (fun i => OpOutcome.transient i) 2
        (fun _ : String => true) ["e1", "e2"] 0 =
      (Except.error (RunErr.transient (2 * (["e1", "e2"] :
          List String).length - 1)),
       expectedTrace 2 0 (2 * (["e1", "e2"] : List String).length)) ∧
     (expectedTrace 2 0
        (2 * (["e1", "e2"] : List String).length)).length =
       2 * (["e1", "e2"] : List String).length) :=
  ⟨⟨by omega, by simp, fun s => rfl⟩,
    c2_retry_exhaustion (α := ℕ) (fun i => i) 2 (fun _ : String => true)
      ["e1", "e2"] 0 (by omega) (by simp) (fun s => rfl)⟩

/-- C9: `execute_with_retry` retries only the recognized transient error
classes: if the wrapped operation raises any other error class at its
`(k+1)`-th call (after `k` transient failures, inside the retry budget),
that error propagates to the caller immediately — the result is the
unrecognized error itself and the side-effect trace has exactly `k` events,
so the propagating call adds no retry, no sleep and no rotation. -/
theorem c9_nontransient_propagates {α : Type} (k e : ℕ) (errId : ℕ → ℕ)
    (MAXR : ℕ) (live : String → Bool) (eps : List String) (idx : ℕ)
    (hE : eps ≠ []) (hlive : ∀ s, live s = true)
    (hk : k < MAXR * eps.length) :
    execute_with_retry (α := α)
        (fun i => if i < k then OpOutcome.transient (errId i)
                  else OpOutcome.fatal e) MAXR live eps idx =
      (Except.error (RunErr.fatal e), expectedTrace MAXR 0 k) ∧
    (expectedTrace MAXR 0 k).length = k :=
  ⟨ewrAux_fatal k e errId MAXR live eps hE hlive hk k 0 idx none
      (by omega),
   expectedTrace_length MAXR k 0⟩

/-- Witness for C9: an unrecognized error on the very first call (k = 0)
propagates with an empty side-effect trace. -/
theorem c9_nontransient_propagates_witness :
    ((["e1"] : List String) ≠ [] ∧
      (∀ s : String, (fun _ : String => true) s = true) ∧
      0 < 3 * (["e1"] : List String).length) ∧
    (execute_with_retry (α := ℕ)
        (fun i => if i < 0 then OpOutcome.transient i
                  else OpOutcome.fatal 7) 3
        (fun _ : String => true) ["e1"] 0 =
      (Except.error (RunErr.fatal 7), expectedTrace 3 0 0) ∧
     (expectedTrace 3 0 0).length = 0) :=
  ⟨⟨by simp, fun s => rfl, by simp⟩,
    c9_nontransient_propagates (α := ℕ) 0 7 (fun i => i) 3
      (fun _ : String => true) ["e1"] 0 (by simp) (fun s => rfl)
      (by simp)⟩

/-- C4: every successfully decoded Supply event record has
`amount_usdc = amount_raw / 10 ^ USDC_DECIMALS` exactly (exact rational
division in this embedding of the source's float division). -/
theorem c4_amount_usdc_exact (ev : RawSupplyEvent) (rec : SupplyRecord)
    (h : parse_supply_event ev = some rec) :
    rec.amount_usdc = (rec.amount_raw : ℚ) / 10 ^ USDC_DECIMALS := by
  unfold parse_supply_event at h
  split at h
  · cases h
    rfl
  · simp at h

/-- Witness for C4 at a concrete decodable event. -/
theorem c4_amount_usdc_exact_witness :
    parse_supply_event evC4 = some recC4 ∧
    recC4.amount_usdc = (recC4.amount_raw : ℚ) / 10 ^ USDC_DECIMALS :=
  ⟨rfl, c4_amount_usdc_exact evC4 recC4 rfl⟩

/-- C3: `fetch_supply_events` loops only while the accumulated count is
below `target`, the window's lower bound is above block 0, and the failed
batch attempts are below the cap of 5; it truncates the accumulated list to
at most `target` records (first conjunct, for every query/head/target).
On the mock source with 3 events in the first window and target 2, the
result has length exactly 2 and only one window is queried; on an
always-failing source the loop stops after exactly 5 failed windows. -/
theorem c3_fetch_truncation :
    (∀ (query : ℕ → ℕ → Except Unit (List RawSupplyEvent))
        (currentBlock target : ℕ),
        (fetch_supply_events query currentBlock target).1.length ≤ target) ∧
    (fetch_supply_events mockQuery 20000 2).1.length = 2 ∧
    (fetch_supply_events mockQuery 20000 2).2 = [(10000, 20000)] ∧
    (fetch_supply_events failQuery 1000000 5).2.length = 5 := by
  have hp : parse_supply_event evC4 = some recC4 := rfl
  refine ⟨?_, ?_, ?_, ?_⟩
  · intro query cb t
    simp only [fetch_supply_events, List.length_take]
    exact Nat.min_le_left _ _
  · rw [fetch_supply_events, fetchLoop.eq_def]
    norm_num [mockQuery, BLOCKS_PER_BATCH, List.filterMap_cons, hp]
  · rw [fetch_supply_events, fetchLoop.eq_def]
    norm_num [mockQuery, BLOCKS_PER_BATCH, List.filterMap_cons, hp]
  · show (fetchLoop failQuery 5 [] 1000000 0).2.length = 5
    exact fetchLoop_fail_len 5 (by norm_num) 5 1000000 0 (by norm_num)
      (by norm_num [BLOCKS_PER_BATCH])

/-- C5 counterexample: the claim quantifies over every record set, but on
the empty record set `analyze_transaction_sizes` raises `KeyError` (the
DataFrame built from `[]` has no `amount_usdc` column), so there are no
bucket counts at all there. -/
theorem c5_counterexample :
    ¬ ∀ records : List SupplyRecord, ∃ d : SizeDist,
        analyze_transaction_sizes records = Except.ok d ∧
        d.small + d.medium + d.large + d.whale = records.length := by
  intro h
  obtain ⟨d, hd, -⟩ := h []
  simp [analyze_transaction_sizes] at hd

/-- C5 (amended to non-empty record sets): the four buckets use half-open
ranges with thresholds 1000/10000/100000, every amount satisfies exactly
one bucket condition, the four counts sum to the record count, and the
boundary amounts 1000, 10000, 100000 are counted as medium, large and
whale respectively. -/
theorem c5_buckets_amended (records : List SupplyRecord)
    (h : records ≠ []) :
    (∃ d : SizeDist, analyze_transaction_sizes records = Except.ok d ∧
      d.small + d.medium + d.large + d.whale = records.length) ∧
    (∀ q : ℚ,
      ((if decide (q < 1000) = true then 1 else 0) +
       (if decide (1000 ≤ q ∧ q < 10000) = true then 1 else 0) +
       (if decide (10000 ≤ q ∧ q < 100000) = true then 1 else 0) +
       (if decide (100000 ≤ q) = true then 1 else 0) : ℕ) = 1) ∧
    analyze_transaction_sizes [amtRecord 1000] =
      Except.ok { small := 0, medium := 1, large := 0, whale := 0 } ∧
    analyze_transaction_sizes [amtRecord 10000] =
      Except.ok { small := 0, medium := 0, large := 1, whale := 0 } ∧
    analyze_transaction_sizes [amtRecord 100000] =
      Except.ok { small := 0, medium := 0, large := 0, whale := 1 } := by
  have hne : records.isEmpty = false := by
    simpa [List.isEmpty_iff] using h
  refine ⟨?_, bucket_one, ?_, ?_, ?_⟩
  · simp only [analyze_transaction_sizes, hne, Bool.false_eq_true, if_false]
    exact ⟨_, rfl, size_counts_sum records⟩
  all_goals
    norm_num [analyze_transaction_sizes, amtRecord, zeroRecord,
      List.filter_cons]

/-- Witness for the amended C5 on a concrete one-record set. -/
theorem c5_buckets_amended_witness :
    ([zeroRecord] : List SupplyRecord) ≠ [] ∧
    (∃ d : SizeDist, analyze_transaction_sizes [zeroRecord] = Except.ok d ∧
      d.small + d.medium + d.large + d.whale =
        ([zeroRecord] : List SupplyRecord).length) :=
  ⟨by simp, ((c5_buckets_amended [zeroRecord] (by simp)).1)⟩

/-- C6: if every one of the configured endpoints fails its liveness probe,
`_connect` probes each of the N endpoints exactly once (N pairwise distinct
cursor positions, all in range), advancing the cursor on each failure, and
then raises `ConnectionError` (`none`) instead of looping. -/
theorem c6_connect_exhaustion (live : String → Bool) (eps : List String)
    (start : ℕ) (hdead : ∀ s ∈ eps, live s = false)
    (hstart : start < eps.length) :
    (connect live eps start).2 = none ∧
    (connect live eps start).1.length = eps.length ∧
    (connect live eps start).1.Nodup ∧
    ∀ i ∈ (connect live eps start).1, i < eps.length := by
  have hcl := connectAux_all_dead live eps hdead eps.length start hstart
  have hN : 0 < eps.length := by omega
  rw [connect, hcl]
  refine ⟨rfl, by simp, ?_, ?_⟩
  · refine List.Nodup.map_on ?_ (List.nodup_range eps.length)
    intro i hi j hj hij
    simp only [List.mem_range] at hi hj
    have h2 : i ≡ j [MOD eps.length] :=
      Nat.ModEq.add_left_cancel' start hij
    rwa [Nat.ModEq, Nat.mod_eq_of_lt hi, Nat.mod_eq_of_lt hj] at h2
  · intro i hi
    simp only [List.mem_map, List.mem_range] at hi
    obtain ⟨j, hj, rfl⟩ := hi
    exact Nat.mod_lt _ hN

/-- Witness for C6: three endpoints, all dead, starting cursor 0. -/
theorem c6_connect_exhaustion_witness :
    (∀ s ∈ (["e1", "e2", "e3"] : List String),
      (fun _ : String => false) s = false) ∧
    (0 < (["e1", "e2", "e3"] : List String).length) ∧
    ((connect (fun _ : String => false) ["e1", "e2", "e3"] 0).2 = none ∧
     (connect (fun _ : String => false) ["e1", "e2", "e3"] 0).1.length =
       (["e1", "e2", "e3"] : List String).length ∧
     (connect (fun _ : String => false) ["e1", "e2", "e3"] 0).1.Nodup ∧
     ∀ i ∈ (connect (fun _ : String => false) ["e1", "e2", "e3"] 0).1,
       i < (["e1", "e2", "e3"] : List String).length) :=
  ⟨by intro s _; rfl, by simp,
    c6_connect_exhaustion (fun _ : String => false) ["e1", "e2", "e3"] 0
      (by intro s _; rfl) (by simp)⟩

/-- C7 counterexample: the claim quantifies over every record set with
non-negative amounts, but on the one-record set whose only amount is 0 the
grand total is 0 and the top-10 percentage is the non-finite float marker
(`none`, a 0/0 NaN), not a rational in [0, 100]. -/
theorem c7_counterexample :
    ¬ ∀ records : List SupplyRecord,
        (∀ r ∈ records, 0 ≤ r.amount_usdc) →
        ∃ p : ℚ, top_n_percentage records 10 = Except.ok (some p) ∧
          0 ≤ p ∧ p ≤ 100 := by
  intro h
  obtain ⟨p, hp, -⟩ := h [zeroRecord] (by
    intro r hr
    rw [List.mem_singleton] at hr
    subst hr
    norm_num [zeroRecord])
  have hz : top_n_percentage [zeroRecord] 10 = Except.ok none := by
    simp [top_n_percentage, groupTotals, addToGroup, total_supply,
      zeroRecord, List.insertionSort]
  rw [hz] at hp
  simp at hp

/-- C7 (amended to a positive grand total, which also forces a non-empty
record set): for every record set with non-negative amounts and positive
grand total, the top-N percentage is a defined rational, monotonically
non-decreasing in N, and bounded in [0, 100]. -/
theorem c7_topn_monotone_amended (records : List SupplyRecord)
    (hnn : ∀ r ∈ records, 0 ≤ r.amount_usdc)
    (hpos : 0 < total_supply records) (n m : ℕ) (hnm : n ≤ m) :
    ∃ pn pm : ℚ,
      top_n_percentage records n = Except.ok (some pn) ∧
      top_n_percentage records m = Except.ok (some pm) ∧
      0 ≤ pn ∧ pn ≤ pm ∧ pm ≤ 100 := by
  have hne : records ≠ [] := by
    intro h0
    rw [h0] at hpos
    simp [total_supply] at hpos
  have hne' : records.isEmpty = false := by
    simpa [List.isEmpty_iff] using hne
  have htot : total_supply records ≠ 0 := ne_of_gt hpos
  have hsorted_nonneg : ∀ x ∈ List.insertionSort (fun a b : ℚ => b ≤ a)
      ((groupTotals records).map (fun x => x.2.1)), 0 ≤ x := by
    intro x hx
    have hx' : x ∈ (groupTotals records).map (fun x => x.2.1) :=
      (List.perm_insertionSort _ _).mem_iff.mp hx
    obtain ⟨y, hy, rfl⟩ := List.mem_map.mp hx'
    exact groupTotals_nonneg records hnn y hy
  have hsum : (List.insertionSort (fun a b : ℚ => b ≤ a)
      ((groupTotals records).map (fun x => x.2.1))).sum =
      total_supply records := by
    rw [(List.perm_insertionSort _ _).sum_eq]
    exact groupTotals_sum records
  refine ⟨((List.insertionSort (fun a b : ℚ => b ≤ a)
      ((groupTotals records).map (fun x => x.2.1))).take n).sum /
        total_supply records * 100,
    ((List.insertionSort (fun a b : ℚ => b ≤ a)
      ((groupTotals records).map (fun x => x.2.1))).take m).sum /
        total_supply records * 100, ?_, ?_, ?_, ?_, ?_⟩
  · simp only [top_n_percentage, hne', Bool.false_eq_true, if_false,
      if_neg htot]
  · simp only [top_n_percentage, hne', Bool.false_eq_true, if_false,
      if_neg htot]
  · exact mul_nonneg (div_nonneg (List.sum_nonneg (fun x hx =>
      hsorted_nonneg x (List.take_subset _ _ hx))) hpos.le) (by norm_num)
  · refine mul_le_mul_of_nonneg_right ?_ (by norm_num)
    exact (div_le_div_iff_of_pos_right hpos).mpr
      (take_sum_mono _ hsorted_nonneg n m hnm)
  · have hS : ((List.insertionSort (fun a b : ℚ => b ≤ a)
        ((groupTotals records).map (fun x => x.2.1))).take m).sum ≤
        total_supply records := by
      rw [← hsum]
      exact take_sum_le_sum _ hsorted_nonneg m
    calc ((List.insertionSort (fun a b : ℚ => b ≤ a)
          ((groupTotals records).map (fun x => x.2.1))).take m).sum /
            total_supply records * 100
        ≤ 1 * 100 :=
          mul_le_mul_of_nonneg_right ((div_le_one hpos).mpr hS)
            (by norm_num)
      _ = 100 := one_mul 100

/-- Witness for the amended C7 on a concrete one-record set with a positive
amount, at N = 1 and M = 2. -/
theorem c7_topn_monotone_amended_witness :
    ((∀ r ∈ ([recC4] : List SupplyRecord), 0 ≤ r.amount_usdc) ∧
      0 < total_supply [recC4] ∧ (1 : ℕ) ≤ 2) ∧
    (∃ pn pm : ℚ,
      top_n_percentage [recC4] 1 = Except.ok (some pn) ∧
      top_n_percentage [recC4] 2 = Except.ok (some pm) ∧
      0 ≤ pn ∧ pn ≤ pm ∧ pm ≤ 100) :=
  ⟨⟨by
      intro r hr
      rw [List.mem_singleton] at hr
      subst hr
      norm_num [recC4, USDC_DECIMALS],
    by norm_num [total_supply, recC4, USDC_DECIMALS],
    by norm_num⟩,
   c7_topn_monotone_amended [recC4]
    (by
      intro r hr
      rw [List.mem_singleton] at hr
      subst hr
      norm_num [recC4, USDC_DECIMALS])
    (by norm_num [total_supply, recC4, USDC_DECIMALS]) 1 2 (by norm_num)⟩

/-- C8: for every non-empty record set, the sum over all addresses of the
per-address totals obtained by grouping `amount_usdc` by `on_behalf_of`
equals the grand total of all amounts (exactly, in this exact-arithmetic
embedding). -/
theorem c8_group_totals_eq_grand_total (records : List SupplyRecord)
    (h : records ≠ []) :
    ((groupTotals records).map (fun x => x.2.1)).sum =
      total_supply records :=
  groupTotals_sum records

/-- Witness for C8 on a concrete three-record set with a repeated
address. -/
theorem c8_group_totals_eq_grand_total_witness :
    ([recC4, zeroRecord, recC4] : List SupplyRecord) ≠ [] ∧
    ((groupTotals [recC4, zeroRecord, recC4]).map (fun x => x.2.1)).sum =
      total_supply [recC4, zeroRecord, recC4] :=
  ⟨by simp, c8_group_totals_eq_grand_total [recC4, zeroRecord, recC4]
    (by simp)⟩

/-- C10: `enrich_events_with_timestamps` maps each record to itself with
only the `timestamp` field set — from the per-block lookup, or 0 when the
lookup failed — so the output has the same length, the same order, and
unchanged block/hash/address/amount fields. -/
theorem c10_enrich_frame (lookup : ℕ → Option ℕ)
    (events : List SupplyRecord) :
    enrich_events_with_timestamps lookup events =
      events.map (fun e =>
        { e with timestamp := get_block_timestamp lookup e.block_number }) ∧
    (enrich_events_with_timestamps lookup events).length = events.length := by
  have hmap : enrich_events_with_timestamps lookup events =
      events.map (fun e =>
        { e with timestamp := get_block_timestamp lookup e.block_number }) := by
    unfold enrich_events_with_timestamps
    refine List.map_congr_left ?_
    intro e he
    have hb : e.block_number ∈ (events.map (·.block_number)).dedup :=
      List.mem_dedup.mpr (List.mem_map_of_mem (·.block_number) he)
    rw [dictGet_map_eq (get_block_timestamp lookup) _ _ hb]
  exact ⟨hmap, by rw [hmap, List.length_map]⟩

end AaveUsdc
